import Mathlib

/-!
Verification of the hatop statistics client (`hatop.py`, upstream version
0.3.2) against its natural-language specification.

The Python program is shallowly embedded: raw socket lines are `List Char`
(`Line`), Python dicts holding parsing results are association lists, and
each relevant Python function (`HAProxySocket.get_stat`,
`HAProxyStat.record`, `get_lines`, `get_width`, `trim`, `human_numeric`,
the navigation-key branches of `mainloop`) becomes a computable Lean
function with the same name.  Machine integers are `Nat`/`Int` (Python has
arbitrary-precision integers, so no wrap-around modelling is needed).
-/

set_option synthInstance.maxSize 4096
set_option synthInstance.maxHeartbeats 1000000
set_option maxHeartbeats 1000000

namespace Hatop

/-- One raw text line from the socket, as a list of characters.
Python strings are sequences of characters; `List Char` keeps every
operation (count, split, strip) a plain structural recursion. -/
abbrev Line := List Char

/-! ### Global constants (hatop.py lines 150-158, 266-268) -/

/-- `SCREEN_XMIN = 78` -/
def SCREEN_XMIN : Nat := 78

/-- `STAT_MAX_SERVICES = 100`: upper limit of fully parsed service stats. -/
def STAT_MAX_SERVICES : Nat := 100

/-- `HAPROXY_STAT_COMMENT = '#'` -/
def HAPROXY_STAT_COMMENT : Char := '#'

/-- `HAPROXY_STAT_SEP = ','` -/
def HAPROXY_STAT_SEP : Char := ','

/-- `HAPROXY_STAT_CSV` (hatop.py lines 179-265): the ordered stat schema,
each entry a (field name, type/prefix) pair, transcribed in source order. -/
def HAPROXY_STAT_CSV : List (String × String) := [
  ("pxname",         "string"),
  ("svname",         "string"),
  ("qcur",           "metric"),
  ("qmax",           "metric"),
  ("scur",           "metric"),
  ("smax",           "metric"),
  ("slim",           "metric"),
  ("stot",           "metric"),
  ("bin",            "binary"),
  ("bout",           "binary"),
  ("dreq",           "metric"),
  ("dresp",          "metric"),
  ("ereq",           "metric"),
  ("econ",           "metric"),
  ("eresp",          "metric"),
  ("wretr",          "metric"),
  ("wredis",         "metric"),
  ("status",         "metric"),
  ("weight",         "metric"),
  ("act",            "metric"),
  ("bck",            "metric"),
  ("chkfail",        "metric"),
  ("chkdown",        "metric"),
  ("lastchg",        "seconds"),
  ("downtime",       "seconds"),
  ("qlimit",         "metric"),
  ("pid",            "metric"),
  ("iid",            "metric"),
  ("sid",            "metric"),
  ("throttle",       "metric"),
  ("lbtot",          "metric"),
  ("tracked",        "metric"),
  ("type",           "metric"),
  ("rate",           "metric"),
  ("rate_lim",       "metric"),
  ("rate_max",       "metric"),
  ("check_status",   "string"),
  ("check_code",     "metric"),
  ("check_duration", "metric"),
  ("hrsp_1xx",       "metric"),
  ("hrsp_2xx",       "metric"),
  ("hrsp_3xx",       "metric"),
  ("hrsp_4xx",       "metric"),
  ("hrsp_5xx",       "metric"),
  ("hrsp_other",     "metric"),
  ("hanafail",       "string"),
  ("req_rate",       "metric"),
  ("req_rate_max",   "metric"),
  ("req_tot",        "metric"),
  ("cli_abrt",       "metric"),
  ("srv_abrt",       "metric")]

/-- `HAPROXY_STAT_NUMFIELDS = len(HAPROXY_STAT_CSV)` (hatop.py line 266). -/
def HAPROXY_STAT_NUMFIELDS : Nat := HAPROXY_STAT_CSV.length

/-! ### Python string primitives used by the parser -/

/-- The whitespace set stripped by Python's `str.strip()`. -/
def pySpace (c : Char) : Bool :=
  c = ' ' || c = '\t' || c = '\n' || c = '\x0b' || c = '\x0c' || c = '\r'

/-- Python `s.strip()`: drop whitespace from both ends. -/
def pyStrip (l : Line) : Line :=
  ((l.dropWhile pySpace).reverse.dropWhile pySpace).reverse

/-- Python `s.split(',')`: split on every separator, keeping empty chunks.
`splitSep l` is always non-empty; e.g. splitting the empty line gives one
empty chunk, as in Python. -/
def splitSep : Line → List Line
  | [] => [[]]
  | c :: rest =>
    if c = HAPROXY_STAT_SEP then [] :: splitSep rest
    else
      match splitSep rest with
      | [] => [[c]]
      | f :: fs => (c :: f) :: fs

/-- Python `s.split(',', 1)`: split at the first separator only. -/
def splitSep1 : Line → List Line
  | [] => [[]]
  | c :: rest =>
    if c = HAPROXY_STAT_SEP then [[], rest]
    else
      match splitSep1 rest with
      | [] => [[c]]
      | f :: fs => (c :: f) :: fs

/-- Python `line.startswith(c)` for a one-character marker. -/
def startsWithChar (l : Line) (c : Char) : Bool :=
  match l with
  | [] => false
  | d :: _ => d == c

/-! ### Dictionaries as association lists

Python dicts in the parser map string keys to mutable objects.  They are
embedded as association lists; the parser never creates duplicate keys
(every insertion first checks membership), so an association list is a
faithful model. -/

/-- Python `d[k]` lookup returning `none` for a `KeyError`. -/
def dfind {α β : Type} [BEq α] (d : List (α × β)) (k : α) : Option β :=
  (d.find? (fun e => e.1 == k)).map (·.2)

/-- Python `d[k] = v` / `setattr`: replace the value at the (first)
binding of `k`, or append a new binding at the end (dict insertion
keeps existing entries in place). -/
def dinsert {α β : Type} [BEq α] : List (α × β) → α → β → List (α × β)
  | [], k, v => [(k, v)]
  | e :: es, k, v =>
    if e.1 == k then (e.1, v) :: es else e :: dinsert es k v

/-- In-place mutation of the object stored at key `k` (a Python method
call on `d[k]`): every binding at `k` is updated, other bindings kept. -/
def dmodify {α β : Type} [BEq α] (d : List (α × β)) (k : α) (f : β → β) :
    List (α × β) :=
  d.map (fun e => if e.1 == k then (e.1, f e.2) else e)

/-! ### HAProxyServiceStat / HAProxyStat (hatop.py lines 420-449) -/

/-- `HAProxyServiceStat`: an attribute bag mapping each schema field name
to its `(type, raw value)` pair, exactly as `setattr(service, name,
(type, value))` stores it.  (The back-reference `service.proxy` carries
no statistics and is omitted.) -/
abbrev Service := List (String × String × Line)

/-- `HAProxyStat.services`: service name -> service record. -/
abbrev Proxy := List (Line × Service)

/-- The `stats` dict built by `get_stat`: proxy name -> `HAProxyStat`. -/
abbrev StatDict := List (Line × Proxy)

/-- Python `getattr(service, name)` for the `(type, value)` pairs. -/
def getattr (svc : Service) (name : String) : Option (String × Line) :=
  dfind svc name

/-- The field loop of `HAProxyStat.record` (hatop.py lines 433-443):
`for idx, field in enumerate(HAPROXY_STAT_CSV)` walking the schema with a
running index into the split line.  `stat.getD idx []` models `stat[idx]`
(every caller passes a line that was split into at least
`HAPROXY_STAT_NUMFIELDS` chunks, so the default is never consulted there).
The `service.status[1] == '-'` test reads the attribute set earlier in the
same loop ("status" precedes "check_status" in the schema), so the
`Option` comparison is exact on every reachable state. -/
def record_fields_aux (svc : Service) (stat : List Line) :
    Nat → List (String × String) → Service
  | _, [] => svc
  | idx, (name, ty) :: rest =>
    let value := stat.getD idx []
    let value :=
      if name == "status" && value == "no check".toList then "-".toList
      else if name == "check_status" &&
          ((getattr svc "status").map (·.2) == some "-".toList) then
        "none".toList
      else value
    record_fields_aux (dinsert svc name (ty, value)) stat (idx + 1) rest

/-- All 51 `setattr` steps of `HAProxyStat.record` applied to one split
stat line. -/
def record_fields (svc : Service) (stat : List Line) : Service :=
  record_fields_aux svc stat 0 HAPROXY_STAT_CSV

/-- `HAProxyStat.record` (hatop.py lines 425-443): fetch or create the
service keyed by `stat[1]`, then run the field loop on it. -/
def record (proxy : Proxy) (stat : List Line) : Proxy :=
  let svname := stat.getD 1 []
  let service := (dfind proxy svname).getD []
  dinsert proxy svname (record_fields service stat)

/-! ### HAProxySocket.get_stat (hatop.py lines 352-385) -/

/-- The four local accumulators of `get_stat`:
`stats, overflow = {}, []` and `pxcount = svcount = 0`. -/
structure StatState where
  stats : StatDict
  overflow : List Line
  pxcount : Nat
  svcount : Nat
deriving DecidableEq, Repr

/-- Initial `get_stat` state. -/
def statInit : StatState := ⟨[], [], 0, 0⟩

/-- The `try: proxy = stats[pxname] / except KeyError: ...` block of
`get_stat` (hatop.py lines 370-379): create the proxy entry below the
cap, otherwise track the proxy name in `overflow`, counting it once. -/
def get_stat_track (st : StatState) (pxname : Line) : StatState :=
  match dfind st.stats pxname with
  | some _ => st
  | none =>
    if st.svcount < STAT_MAX_SERVICES then
      { st with stats := st.stats ++ [(pxname, [])],
                pxcount := st.pxcount + 1 }
    else if pxname ∈ st.overflow then st
    else
      { st with overflow := st.overflow ++ [pxname],
                pxcount := st.pxcount + 1 }

/-- The `if svcount < STAT_MAX_SERVICES: proxy.record(stat)` statement
of `get_stat` (hatop.py lines 381-382): mutate the proxy stored under
`pxname` (it is always present below the cap). -/
def get_stat_record (st : StatState) (pxname : Line)
    (stat : List Line) : StatState :=
  if st.svcount < STAT_MAX_SERVICES then
    { st with stats := dmodify st.stats pxname (fun p => record p stat) }
  else st

/-- One iteration of the `for line in self.recv()` loop of `get_stat`. -/
def get_stat_step (st : StatState) (line : Line) : StatState :=
  if line.count HAPROXY_STAT_SEP ≠ HAPROXY_STAT_NUMFIELDS then st
  else if startsWithChar line HAPROXY_STAT_COMMENT then st
  else
    let stat0 :=
      if st.svcount < STAT_MAX_SERVICES then splitSep line else splitSep1 line
    let stat := stat0.map pyStrip
    let pxname := stat.getD 0 []
    let st1 := get_stat_track st pxname
    let st2 := get_stat_record st1 pxname stat
    { st2 with svcount := st2.svcount + 1 }

/-- `HAProxySocket.get_stat` applied to the line sequence of one
`show stat` response (the transport framing itself is external I/O). -/
def get_stat (lines : List Line) : StatState :=
  lines.foldl get_stat_step statInit

/-! ### Screen lines and get_lines (hatop.py lines 586-597, 790-828) -/

/-- The ncurses attribute constant `curses.A_BOLD` (an external numeric
constant; its value, `1 << 21` in ncurses, never influences control
flow in hatop). -/
def curses_A_BOLD : Nat := 2097152

/-- `ScreenLine` (hatop.py lines 586-592): either a structural line
(proxy header or blank separator) or a line bound to one service record.
The mutable `proxy` object reference is identified by the proxy's name. -/
structure ScreenLine where
  proxy : Option Line
  service : Option Service
  value : Line
  attr : Nat
deriving Repr

instance : DecidableEq ScreenLine := fun a b =>
  decidable_of_iff
    (a.proxy = b.proxy ∧ a.service = b.service ∧ a.value = b.value ∧
      a.attr = b.attr)
    (by cases a; cases b; simp)

/-- The fresh `ScreenLine()` with its `__init__` defaults. -/
def blankScreenLine : ScreenLine := ⟨none, none, [], 0⟩

/-- The proxy header line built at the top of each group:
`line.value = '>>> %s' % pxname`, `line.attr = curses.A_BOLD`. -/
def mkHeaderLine (pxname : Line) : ScreenLine :=
  ⟨some pxname, none, ">>> ".toList ++ pxname, curses_A_BOLD⟩

/-- A data line bound to one service record. -/
def mkServiceLine (pxname : Line) (svc : Service) : ScreenLine :=
  ⟨some pxname, some svc, [], 0⟩

/-- Python string comparison `a < b` (lexicographic on character codes),
as used by `sorted()` on dict items with distinct string keys. -/
def lineLt : Line → Line → Bool
  | [], [] => false
  | [], _ :: _ => true
  | _ :: _, [] => false
  | a :: as, b :: bs => if a = b then lineLt as bs else decide (a < b)

/-- `a <= b` for lines. -/
def lineLe (a b : Line) : Bool := !(lineLt b a)

/-- Insert into a list sorted by key (helper for `sortItems`). -/
def insertByKey {β : Type} (x : Line × β) :
    List (Line × β) → List (Line × β)
  | [] => [x]
  | y :: ys => if lineLe x.1 y.1 then x :: y :: ys else y :: insertByKey x ys

/-- Python `sorted(d.items())` for a dict with (distinct) string keys:
a stable sort of the bindings by key. -/
def sortItems {β : Type} (d : List (Line × β)) : List (Line × β) :=
  d.foldr insertByKey []

/-- Python `proxy.services.pop(key)` wrapped in `try/except`: the popped
value (or `none`) together with the dict with that key removed. -/
def popService (p : Proxy) (k : Line) : Option Service × Proxy :=
  (dfind p k, p.filter (fun e => !(e.1 == k)))

/-- The body of `get_lines` for one proxy group (hatop.py lines 792-826):
header line, popped FRONTEND first, remaining services sorted by name,
popped BACKEND last, one blank separator.  The second component is the
proxy's services dict *after* the two destructive `pop` calls. -/
def get_lines_proxy (pxname : Line) (proxy : Proxy) :
    List ScreenLine × Proxy :=
  let fr := popService proxy "FRONTEND".toList
  let bk := popService fr.2 "BACKEND".toList
  let fl := match fr.1 with
    | some svc => [mkServiceLine pxname svc]
    | none => []
  let ml := (sortItems bk.2).map (fun e => mkServiceLine pxname e.2)
  let bl := match bk.1 with
    | some svc => [mkServiceLine pxname svc]
    | none => []
  (mkHeaderLine pxname :: (fl ++ ml ++ bl) ++ [blankScreenLine], bk.2)

/-- `get_lines(stat)` (hatop.py lines 790-828).  Because the Python code
mutates the shared proxy objects (`services.pop`), the embedding returns
both the produced line list and the snapshot as it stands after the
call. -/
def get_lines (stat : StatDict) : List ScreenLine × StatDict :=
  (((sortItems stat).map (fun e => (get_lines_proxy e.1 e.2).1)).flatten,
   stat.map (fun e => (e.1, (get_lines_proxy e.1 e.2).2)))

/-! ### get_width (hatop.py lines 760-771) -/

/-- `get_width(width, xmax, ncols, idx)`: distribute the excess terminal
width `xmax - SCREEN_XMIN` over the columns, left to right.  All
quantities are non-negative machine integers in the program. -/
def get_width (width xmax ncols idx : Nat) : Nat :=
  if SCREEN_XMIN < xmax then
    let xdiff := xmax - SCREEN_XMIN
    if xdiff ≤ ncols then
      if idx < xdiff then width + 1 else width
    else
      let width := if idx < xdiff - xdiff / ncols * ncols then width + 1
        else width
      width + xdiff / ncols
  else width

/-! ### trim (hatop.py lines 751-758) -/

/-- `trim(l, s)`: truncate `s` to width `l`.  `s[0]` is total here
because the branch is only reached when `len(s) > l = 1`, and
`s[-(l-2):]` is the last `l-2` characters. -/
def trim (l : Nat) (s : Line) : Line :=
  if s.length ≤ l then s
  else if l = 1 then [s.headD ' ']
  else if 5 < l then '.' :: '.' :: s.drop (s.length - (l - 2))
  else "...".toList

/-! ### human_numeric (hatop.py lines 743-749, 273-281) -/

/-- `PREFIX_BINARY` (hatop.py lines 273-276). -/
def PREFIX_BINARY : List (Nat × String) := [(1024, "K"), (1024 ^ 2, "M")]

/-- `PREFIX_METRIC` (hatop.py lines 277-281). -/
def PREFIX_METRIC : List (Nat × String) :=
  [(1000, "k"), (1000 ^ 2, "M"), (1000 ^ 3, "G")]

/-- Insert into a list sorted by numeric key, descending (helper for
`sortPairsDesc`). -/
def insertDescByKey (x : Nat × String) :
    List (Nat × String) → List (Nat × String)
  | [] => [x]
  | y :: ys => if y.1 ≤ x.1 then x :: y :: ys else y :: insertDescByKey x ys

/-- Python `sorted(P.items(), reverse=True)` for a dict with distinct
numeric keys: bindings by key, largest first. -/
def sortPairsDesc (l : List (Nat × String)) : List (Nat × String) :=
  l.foldr insertDescByKey []

/-- All-decimal-digits parse (helper for `pyParseInt`). -/
def digitsToNat : Line → Option Nat
  | [] => none
  | l => l.foldl (fun acc c => do
      let a ← acc
      if c.isDigit then some (a * 10 + (c.toNat - 48)) else none)
      (some 0)

/-- Python `int(s, 10)` on an already-stripped string: optional sign
followed by decimal digits, error (`none`) otherwise. -/
def pyParseInt (s : Line) : Option Int :=
  match s with
  | '-' :: rest => (digitsToNat rest).map (fun n => -(n : Int))
  | '+' :: rest => (digitsToNat rest).map (fun n => (n : Int))
  | _ => (digitsToNat s).map (fun n => (n : Int))

/-- Models Python `'%.1f' % (float(num)/den)` for `num, den >= 0`,
`den > 0`: the quotient rounded to one decimal digit, half to even.
Formatting the binary64 quotient agrees with this exact rational
rounding whenever `num/den` is exactly representable — in particular
whenever `den` is a power of two, which covers every `PREFIX_BINARY`
threshold used in the claims. -/
def fmt_f1 (num den : Nat) : String :=
  let t := num * 10
  let q := t / den
  let r := t % den
  let scaled :=
    if den < 2 * r then q + 1
    else if 2 * r < den then q
    else if q % 2 = 0 then q else q + 1
  toString (scaled / 10) ++ "." ++ toString (scaled % 10)

/-- `'%.1f' % (float(value)/minval)` for a possibly negative `value`
(round half to even is symmetric, so the sign factors out). -/
def pyFormatF1 (value : Int) (minval : Nat) : String :=
  if value < 0 then "-" ++ fmt_f1 value.natAbs minval
  else fmt_f1 value.toNat minval

/-- `human_numeric(numval, si)` (hatop.py lines 743-749): parse the raw
text as an integer (`int(numval, 10)`, `none` models the `ValueError`),
walk the prefix thresholds largest first, and return the first scaled
rendering whose floor quotient is non-zero, else `str(value)`.
`Int.fdiv` is Python's floor division. -/
def human_numeric (numval : Line) (si : Bool) : Option String :=
  (pyParseInt numval).map (fun value =>
    let P := if si then PREFIX_METRIC else PREFIX_BINARY
    match (sortPairsDesc P).find?
        (fun p => !(value.fdiv (p.1 : Int) == 0)) with
    | some p => pyFormatF1 value p.1 ++ p.2
    | none => toString value)

/-! ### Navigation-key handling (hatop.py lines 500-510, 1067-1097)

`Screen.cmin` is set to 0 in `__init__` and never changed; `cmax` is
determined by the screen height; `maxvmin = len(data.lines) - cmax - 2`
is recomputed from the current line list on every DOWN/NPAGE key.  The
offsets are Python integers, embedded as `Int`. -/

/-- The two scroll offsets mutated by the navigation keys:
`screen.vmin` (viewport start) and `screen.cpos` (cursor offset). -/
structure NavState where
  vmin : Int
  cpos : Int
deriving DecidableEq, Repr

/-- The four navigation keys handled in the stat modes. -/
inductive NavKey where
  | up | down | ppage | npage
deriving DecidableEq, Repr

/-- One navigation key dispatch from `mainloop` (hatop.py lines
1067-1097), for fixed `cmax` and `maxvmin = len(lines) - cmax - 2`.
Each branch first updates `cpos`, then tests the *updated* `cpos`
against the edge, exactly as the sequential Python assignments do. -/
def nav_step (cmax maxvmin : Int) (st : NavState) : NavKey → NavState
  | .up =>
    let c := if 0 < st.cpos then st.cpos - 1 else st.cpos
    let v := if c = 0 ∧ 0 < st.vmin then st.vmin - 1 else st.vmin
    ⟨v, c⟩
  | .down =>
    let c := if st.cpos < cmax then st.cpos + 1 else st.cpos
    let v := if c = cmax ∧ st.vmin < maxvmin then st.vmin + 1 else st.vmin
    ⟨v, c⟩
  | .ppage =>
    let c := if 0 < st.cpos then max 0 (st.cpos - 10) else st.cpos
    let v := if c = 0 ∧ 0 < st.vmin then max 0 (st.vmin - 10) else st.vmin
    ⟨v, c⟩
  | .npage =>
    let c := if st.cpos < cmax then min cmax (st.cpos + 10) else st.cpos
    let v := if c = cmax ∧ st.vmin < maxvmin then min maxvmin (st.vmin + 10)
      else st.vmin
    ⟨v, c⟩

/-- A whole sequence of navigation keys applied from the initial
`vmin = cpos = 0` state (`Screen.__init__`). -/
def nav_run (cmax maxvmin : Int) (keys : List NavKey) : NavState :=
  keys.foldl (nav_step cmax maxvmin) ⟨0, 0⟩

/-! ### Derived definitions used by the theorems -/

/-- The per-column share of the excess width `e` distributed over
`ncols` columns, exactly as the claim describes the rule: one unit to
the first `e` columns when `e ≤ ncols`, otherwise `e / ncols` to each
column plus one extra unit to the first `e % ncols` columns. -/
def column_gain (e ncols idx : Nat) : Nat :=
  if e ≤ ncols then (if idx < e then 1 else 0)
  else e / ncols + (if idx < e % ncols then 1 else 0)

/-- The spec scenario line for C3: raw `status` is "no check" and raw
`check_status` is "L4OK". -/
def c3_line : Line :=
  ("web,srv1,0,0,5,10,100,500,1000,2000,0,0,0,0,0,0,0,no check,0,0,0,0," ++
   "0,0,0,0,1,7,3,0,0,0,2,0,0,0,L4OK,0,0,0,0,0,0,0,0,,0,0,0,0,0,").toList

/-- A well-framed line whose `qcur` field (index 2) is empty and whose
`scur` field (index 4) is the non-numeric text "abc". -/
def c4_line : Line :=
  ("web,srv1,,0,abc,10,100,500,1000,2000,0,0,0,0,0,0,0,UP,0,0,0,0," ++
   "0,0,0,0,1,7,3,0,0,0,2,0,0,0,L4OK,0,0,0,0,0,0,0,0,,0,0,0,0,0,").toList

/-- The spec's scenario line for C2 (proxy "web", service FRONTEND,
scur 5, status OPEN, iid 7, trailing separator). -/
def c2_line : Line :=
  ("web,FRONTEND,0,0,5,10,100,500,1000,2000,0,0,0,0,0,0,0,OPEN,0,0,0,0," ++
   "0,0,0,0,1,7,0,0,0,0,0,0,0,0,,0,0,0,0,0,0,0,0,,0,0,0,0,0,").toList

/-- A one-proxy snapshot holding a FRONTEND record and a server
record. -/
def c6_stat : StatDict :=
  [("web".toList,
    [("FRONTEND".toList, [("pxname", "string", "web".toList)]),
     ("s1".toList, [])])]

/-- The proxy name `get_stat` extracts from a line: the stripped text
before the first separator (identical for the full and the
maxsplit-one split). -/
def pxnameOf (line : Line) : Line := pyStrip ((splitSep line).getD 0 [])

/-- The service name extracted from a fully split line. -/
def svnameOf (line : Line) : Line := pyStrip ((splitSep line).getD 1 [])

/-- A line that passes both framing guards of `get_stat`. -/
def statAccepted (line : Line) : Prop :=
  line.count HAPROXY_STAT_SEP = HAPROXY_STAT_NUMFIELDS ∧
  startsWithChar line HAPROXY_STAT_COMMENT = false

/-- Number of fully materialized service records across all proxies of
a snapshot. -/
def totalServices (d : StatDict) : Nat := (d.map (fun e => e.2.length)).sum

/-- The keys of an association list, in order. -/
def dkeys {α β : Type} (d : List (α × β)) : List α := d.map (·.1)

/-- All (proxy name, service name) pairs materialized in a snapshot. -/
def pairsOf (d : StatDict) : List (Line × Line) :=
  (d.map (fun e => e.2.map (fun s => (e.1, s.1)))).flatten

/-- The distinct elements of a list, first occurrences in order. -/
def firstOcc (xs : List Line) : List Line :=
  xs.foldl (fun acc x => if x ∈ acc then acc else acc ++ [x]) []

/-- The split-and-stripped field list `get_stat` builds below the
service cap. -/
def statFieldsOf (l : Line) : List Line := (splitSep l).map pyStrip

/-- The loop invariant of `get_stat`, for a prefix `seen` of accepted,
pairwise-fresh lines: the counters, the counted proxy names (snapshot
keys followed by the overflow list, in first-occurrence order) and the
materialized (proxy, service) pairs. -/
structure StatInv (seen : List Line) (st : StatState) : Prop where
  sv : st.svcount = seen.length
  keys : dkeys st.stats ++ st.overflow = firstOcc (seen.map pxnameOf)
  px : st.pxcount = (dkeys st.stats ++ st.overflow).length
  ovf : seen.length < STAT_MAX_SERVICES → st.overflow = []
  pairs : (pairsOf st.stats).Perm ((seen.take STAT_MAX_SERVICES).map
      (fun x => (pxnameOf x, svnameOf x)))

/-- A concrete `show stat` response with 101 well-formed service lines:
line `i` is proxy `p<i>`, service `s`, followed by 49 empty fields and
the upstream trailing separator (51 separators in all). -/
def c5_lines : List Line :=
  (List.range 101).map (fun i =>
    'p' :: Nat.toDigits 10 i ++ (',' :: 's' :: List.replicate 50 ','))

instance statAccepted_dec (l : Line) : Decidable (statAccepted l) :=
  inferInstanceAs (Decidable (_ ∧ _))

/-! ## Theorems -/

/-! ### C8: trim -/

/-- The claim's truncation rule for widths above 5, as stated:
two dots followed by the last `w - 2` characters. -/
theorem trim_width_two_counterexample :
    trim 2 ("abcd".toList) = "...".toList ∧
    (trim 2 ("abcd".toList)).length = 3 ∧
    ¬((trim 2 ("abcd".toList)).length ≤ 2) := by decide

/-- C8 (amended): `trim w s` returns `s` unchanged when it fits, the
first character for `w = 1`, and the two-dots-plus-tail form for
`w > 5`; its length is bounded by `w` for every width except `w = 2`,
where the fixed three-character ellipsis exceeds the width (so the
uniform bound is `max w 3`). -/
theorem trim_spec (w : Nat) (s : Line) (hw : 1 ≤ w) :
    (trim w s).length ≤ max w 3 ∧
    (w ≠ 2 → (trim w s).length ≤ w) ∧
    (s.length ≤ w → trim w s = s) ∧
    (w = 1 → 1 ≤ s.length → trim w s = s.take 1) ∧
    (5 < w → w < s.length →
      trim w s = '.' :: '.' :: s.drop (s.length - (w - 2))) := by
  unfold trim
  split_ifs with hfit h1 h5
  · refine ⟨le_trans hfit (le_max_left _ _), fun _ => hfit, fun _ => rfl,
      ?_, fun _ hlong => by omega⟩
    intro hw1 hs1
    rw [List.take_of_length_le (by omega)]
  · subst h1
    refine ⟨?_, ?_, fun h => absurd h hfit, ?_, fun h => by omega⟩
    · simp
    · intro _; simp
    · intro _ _
      cases s with
      | nil => exact absurd (by simp) hfit
      | cons c cs => simp
  · have hdroplen : (s.drop (s.length - (w - 2))).length = w - 2 := by
      rw [List.length_drop]; omega
    refine ⟨?_, fun _ => ?_, fun h => absurd h hfit,
      fun h => absurd h h1, fun _ _ => rfl⟩
    · simp only [List.length_cons, hdroplen]; omega
    · simp only [List.length_cons, hdroplen]; omega
  · have h3 : ("...".toList).length = 3 := rfl
    refine ⟨by omega, fun h2 => by omega, fun h => absurd h hfit,
      fun h => absurd h h1, fun h => absurd h h5⟩

/-- Witness for `trim_spec` at a concrete width and string. -/
theorem trim_spec_witness :
    trim 8 ("abcdefghijk".toList)
      = '.' :: '.' :: ("abcdefghijk".toList).drop 5 :=
  (trim_spec 8 ("abcdefghijk".toList) (by decide)).2.2.2.2 (by decide)
    (by decide)

/-! ### C7: get_width -/

theorem column_gain_eq_ceil (e ncols idx : Nat) (hn : 1 ≤ ncols)
    (hi : idx < ncols) :
    column_gain e ncols idx = (e + (ncols - 1) - idx) / ncols := by
  unfold column_gain
  by_cases he : e ≤ ncols
  · rw [if_pos he]
    by_cases hlt : idx < e
    · rw [if_pos hlt]
      have hv : e + (ncols - 1) - idx = (e + (ncols - 1) - idx - ncols) + ncols := by
        omega
      rw [hv, Nat.add_div_right _ (by omega), Nat.div_eq_of_lt (by omega)]
    · rw [if_neg hlt, Nat.div_eq_of_lt (by omega)]
  · rw [if_neg he]
    have hq := Nat.div_add_mod e ncols
    have hr : e % ncols < ncols := Nat.mod_lt _ (by omega)
    by_cases hlt : idx < e % ncols
    · rw [if_pos hlt]
      have hv : e + (ncols - 1) - idx
          = (e % ncols - 1 - idx) + ncols * (e / ncols + 1) := by
        rw [Nat.mul_succ]; omega
      rw [hv, Nat.add_mul_div_left _ _ (by omega : 0 < ncols),
        Nat.div_eq_of_lt (show e % ncols - 1 - idx < ncols by omega)]
      omega
    · rw [if_neg hlt]
      have hv : e + (ncols - 1) - idx
          = (e % ncols + (ncols - 1) - idx) + ncols * (e / ncols) := by
        omega
      rw [hv, Nat.add_mul_div_left _ _ (by omega : 0 < ncols),
        Nat.div_eq_of_lt (show e % ncols + (ncols - 1) - idx < ncols by omega)]
      omega

theorem get_width_eq_gain (w xmax ncols idx : Nat) (hn : 1 ≤ ncols)
    (hx : SCREEN_XMIN ≤ xmax) :
    get_width w xmax ncols idx
      = w + column_gain (xmax - SCREEN_XMIN) ncols idx := by
  unfold get_width column_gain
  by_cases hgt : SCREEN_XMIN < xmax
  · rw [if_pos hgt]
    by_cases he : xmax - SCREEN_XMIN ≤ ncols
    · rw [if_pos he, if_pos he]
      by_cases hlt : idx < xmax - SCREEN_XMIN <;> simp [hlt]
    · rw [if_neg he, if_neg he]
      have hmod : xmax - SCREEN_XMIN - (xmax - SCREEN_XMIN) / ncols * ncols
          = (xmax - SCREEN_XMIN) % ncols := by
        have h := Nat.div_add_mod (xmax - SCREEN_XMIN) ncols
        rw [mul_comm] at h
        omega
      rw [hmod]
      by_cases hlt : idx < (xmax - SCREEN_XMIN) % ncols <;> simp [hlt] <;> omega
  · have hx0 : xmax = SCREEN_XMIN := by omega
    rw [if_neg hgt, hx0]
    simp

theorem sum_indicator_lt (e n : Nat) :
    (∑ i ∈ Finset.range n, if i < e then 1 else 0) = min e n := by
  induction n with
  | zero => simp
  | succ n ih =>
    rw [Finset.sum_range_succ, ih]
    by_cases h : n < e <;> simp [h] <;> omega

theorem column_gain_sum (e ncols : Nat) (hn : 1 ≤ ncols) :
    (∑ i ∈ Finset.range ncols, column_gain e ncols i) = e := by
  unfold column_gain
  by_cases he : e ≤ ncols
  · simp only [if_pos he, sum_indicator_lt]
    omega
  · simp only [if_neg he, Finset.sum_add_distrib, sum_indicator_lt,
      Finset.sum_const, Finset.card_range, smul_eq_mul]
    have hq := Nat.div_add_mod e ncols
    have hr : e % ncols < ncols := Nat.mod_lt _ (by omega)
    omega

/-- C7: for `ncols ≥ 1` columns and actual width `xmax ≥ SCREEN_XMIN`,
the widths produced by `get_width` gain in total exactly
`xmax - SCREEN_XMIN` over the input minimum widths, every column's gain
follows the leftmost-first distribution rule (`column_gain`), and each
column's width is monotone in the actual width. -/
theorem get_width_distribution (ncols xmax : Nat) (w : Nat → Nat)
    (hn : 1 ≤ ncols) (hx : SCREEN_XMIN ≤ xmax) :
    (∑ i ∈ Finset.range ncols, get_width (w i) xmax ncols i)
      = (∑ i ∈ Finset.range ncols, w i) + (xmax - SCREEN_XMIN) ∧
    (∀ idx, idx < ncols →
      get_width (w idx) xmax ncols idx
        = w idx + column_gain (xmax - SCREEN_XMIN) ncols idx) ∧
    (∀ idx xmax2, idx < ncols → xmax ≤ xmax2 →
      get_width (w idx) xmax ncols idx
        ≤ get_width (w idx) xmax2 ncols idx) := by
  refine ⟨?_, fun idx _ => get_width_eq_gain _ _ _ _ hn hx, ?_⟩
  · have hcongr : ∀ i ∈ Finset.range ncols,
        get_width (w i) xmax ncols i
          = w i + column_gain (xmax - SCREEN_XMIN) ncols i :=
      fun i _ => get_width_eq_gain _ _ _ _ hn hx
    rw [Finset.sum_congr rfl hcongr, Finset.sum_add_distrib,
      column_gain_sum _ _ hn]
  · intro idx xmax2 hi hle
    rw [get_width_eq_gain _ _ _ _ hn hx,
      get_width_eq_gain _ _ _ _ hn (le_trans hx hle),
      column_gain_eq_ceil _ _ _ hn hi, column_gain_eq_ceil _ _ _ hn hi]
    exact Nat.add_le_add_left (Nat.div_le_div_right (by omega)) _

/-- Witness for `get_width_distribution` with three columns of minimum
width 26 (summing to the base width 78) on an 83-column terminal. -/
theorem get_width_distribution_witness :
    (∑ i ∈ Finset.range 3, get_width 26 83 3 i)
        = (∑ i ∈ Finset.range 3, 26) + (83 - SCREEN_XMIN) ∧
    (∀ idx, idx < 3 →
      get_width 26 83 3 idx = 26 + column_gain (83 - SCREEN_XMIN) 3 idx) ∧
    (∀ idx xmax2, idx < 3 → 83 ≤ xmax2 →
      get_width 26 83 3 idx ≤ get_width 26 xmax2 3 idx) :=
  get_width_distribution 3 83 (fun _ => 26) (by decide) (by decide)

/-! ### C9: human_numeric -/

theorem natCast_fdiv (a b : Nat) :
    ((a : Int).fdiv (b : Int)) = ((a / b : Nat) : Int) := by
  rcases a with _ | a <;> rcases b with _ | b <;> simp [Int.fdiv]

/-- On the inputs of the claim, binary humanization yields `"1.5K"`
(a single decimal digit) for 1536 and the bare `"500"` (no unit suffix
at all) for 500 — not `"1.50K"` and `"500B"`. -/
theorem human_numeric_binary_counterexample :
    human_numeric ("1536".toList) false = some "1.5K" ∧
    human_numeric ("1536".toList) false ≠ some "1.50K" ∧
    human_numeric ("500".toList) false = some "500" ∧
    human_numeric ("500".toList) false ≠ some "500B" := by decide

/-- C9 (amended): binary humanization (`human_numeric` with `si=False`)
uses base-1024 thresholds with one decimal digit: values below 1024 are
rendered as the bare integer text (no `B` suffix), values in
`[1024, 1024^2)` as the one-decimal quotient by 1024 followed by `K`,
and larger values likewise with `M`; in particular 1536 yields `"1.5K"`
and 500 yields `"500"`. -/
theorem human_numeric_binary (s : Line) (n : Nat)
    (h : pyParseInt s = some (n : Int)) :
    (n < 1024 → human_numeric s false = some (toString (n : Int))) ∧
    (1024 ≤ n → n < 1024 ^ 2 →
      human_numeric s false = some (fmt_f1 n 1024 ++ "K")) ∧
    (1024 ^ 2 ≤ n → human_numeric s false = some (fmt_f1 n (1024 ^ 2) ++ "M")) := by
  have hsort : sortPairsDesc PREFIX_BINARY = [(1024 ^ 2, "M"), (1024, "K")] := rfl
  have hfmt : ∀ m : Nat, pyFormatF1 (n : Int) m = fmt_f1 n m := by
    intro m
    unfold pyFormatF1
    rw [if_neg (by exact not_lt.mpr (Int.natCast_nonneg n))]
    simp
  have hM : ∀ m : Nat, n / m = 0 →
      ¬((!((n : Int).fdiv ((m : Nat) : Int) == 0)) = true) := by
    intro m hz
    rw [natCast_fdiv, hz]
    simp
  have hM2 : ∀ m : Nat, n / m ≠ 0 →
      ((!((n : Int).fdiv ((m : Nat) : Int) == 0)) = true) := by
    intro m hz
    rw [natCast_fdiv]
    simpa using Int.natCast_ne_zero.mpr hz
  unfold human_numeric
  rw [h]
  simp only [Option.map_some']
  have hif : (if false = true then PREFIX_METRIC else PREFIX_BINARY)
      = PREFIX_BINARY := rfl
  rw [hif]
  refine ⟨?_, ?_, ?_⟩
  · intro h1
    rw [hsort,
      @List.find?_cons_of_neg (Nat × String)
        (fun p => !((n : Int).fdiv (p.1 : Int) == 0)) (1024 ^ 2, "M")
        [(1024, "K")] (hM (1024 ^ 2) (Nat.div_eq_of_lt (by omega))),
      @List.find?_cons_of_neg (Nat × String)
        (fun p => !((n : Int).fdiv (p.1 : Int) == 0)) (1024, "K")
        [] (hM 1024 (Nat.div_eq_of_lt (by omega)))]
    rfl
  · intro h1 h2
    rw [hsort,
      @List.find?_cons_of_neg (Nat × String)
        (fun p => !((n : Int).fdiv (p.1 : Int) == 0)) (1024 ^ 2, "M")
        [(1024, "K")] (hM (1024 ^ 2) (Nat.div_eq_of_lt (by omega))),
      @List.find?_cons_of_pos (Nat × String)
        (fun p => !((n : Int).fdiv (p.1 : Int) == 0)) (1024, "K")
        [] (hM2 1024 (by
          rw [ne_eq, Nat.div_eq_zero_iff (by omega)]
          omega))]
    simp [hfmt]
  · intro h1
    rw [hsort,
      @List.find?_cons_of_pos (Nat × String)
        (fun p => !((n : Int).fdiv (p.1 : Int) == 0)) (1024 ^ 2, "M")
        [(1024, "K")] (hM2 (1024 ^ 2) (by
          rw [ne_eq, Nat.div_eq_zero_iff (by omega)]
          omega))]
    simp [hfmt]

/-- Witness for `human_numeric_binary` at the claim's two inputs. -/
theorem human_numeric_binary_witness :
    human_numeric ("1536".toList) false = some (fmt_f1 1536 1024 ++ "K") ∧
    human_numeric ("500".toList) false = some (toString ((500 : Nat) : Int)) :=
  ⟨(human_numeric_binary ("1536".toList) 1536 (by decide)).2.1 (by decide)
      (by decide),
   (human_numeric_binary ("500".toList) 500 (by decide)).1 (by decide)⟩

/-! ### C10: navigation bounds -/

theorem nav_step_inv (cmax maxvmin : Int) (hc : 0 ≤ cmax) (st : NavState)
    (k : NavKey)
    (h : 0 ≤ st.vmin ∧ st.vmin ≤ max 0 maxvmin ∧ 0 ≤ st.cpos ∧
      st.cpos ≤ cmax) :
    0 ≤ (nav_step cmax maxvmin st k).vmin ∧
    (nav_step cmax maxvmin st k).vmin ≤ max 0 maxvmin ∧
    0 ≤ (nav_step cmax maxvmin st k).cpos ∧
    (nav_step cmax maxvmin st k).cpos ≤ cmax := by
  obtain ⟨h1, h2, h3, h4⟩ := h
  cases k <;> simp only [nav_step] <;> split_ifs <;> simp_all <;> omega

theorem nav_fold_inv (cmax maxvmin : Int) (hc : 0 ≤ cmax)
    (keys : List NavKey) (st : NavState)
    (h : 0 ≤ st.vmin ∧ st.vmin ≤ max 0 maxvmin ∧ 0 ≤ st.cpos ∧
      st.cpos ≤ cmax) :
    0 ≤ (keys.foldl (nav_step cmax maxvmin) st).vmin ∧
    (keys.foldl (nav_step cmax maxvmin) st).vmin ≤ max 0 maxvmin ∧
    0 ≤ (keys.foldl (nav_step cmax maxvmin) st).cpos ∧
    (keys.foldl (nav_step cmax maxvmin) st).cpos ≤ cmax := by
  induction keys generalizing st with
  | nil => exact h
  | cons k ks ih => exact ih _ (nav_step_inv cmax maxvmin hc st k h)

/-- C10: starting from viewport offset 0 and cursor offset 0, every
sequence of UP/DOWN/PPAGE/NPAGE keys over a fixed line list of length
`L` and a window of height `cmax + 1` keeps `vmin` within
`[0, L - (cmax+1)]` and `cpos` within `[0, cmax]`; at the window's
bottom edge a DOWN advances the viewport (cursor unchanged) and NPAGE
advances it by 10, clamped to `maxvmin = L - cmax - 2`, so the viewport
never scrolls past `L - (cmax+1)`. -/
theorem nav_bounds (cmax L : Int) (keys : List NavKey)
    (hc : 0 ≤ cmax) (hL : cmax + 1 ≤ L) :
    (0 ≤ (nav_run cmax (L - cmax - 2) keys).vmin ∧
      (nav_run cmax (L - cmax - 2) keys).vmin ≤ L - (cmax + 1)) ∧
    (0 ≤ (nav_run cmax (L - cmax - 2) keys).cpos ∧
      (nav_run cmax (L - cmax - 2) keys).cpos ≤ (cmax + 1) - 1) ∧
    (∀ s : NavState, s.cpos = cmax → s.vmin < L - cmax - 2 →
      nav_step cmax (L - cmax - 2) s NavKey.down = ⟨s.vmin + 1, s.cpos⟩) ∧
    (∀ s : NavState, s.cpos = cmax → s.vmin < L - cmax - 2 →
      nav_step cmax (L - cmax - 2) s NavKey.npage
        = ⟨min (L - cmax - 2) (s.vmin + 10), s.cpos⟩) := by
  have hinv := nav_fold_inv cmax (L - cmax - 2) hc keys ⟨0, 0⟩
    (by constructor <;> simp <;> omega)
  obtain ⟨h1, h2, h3, h4⟩ := hinv
  refine ⟨⟨h1, by unfold nav_run; omega⟩, ⟨by unfold nav_run; omega,
    by unfold nav_run; omega⟩, ?_, ?_⟩
  · intro s hcpos hvmin
    simp only [nav_step]
    rw [hcpos]
    simp [hvmin]
  · intro s hcpos hvmin
    simp only [nav_step]
    rw [hcpos]
    simp [hvmin]

/-- Witness for `nav_bounds` on a ten-line list with window height 5. -/
theorem nav_bounds_witness :
    (0 ≤ (nav_run 4 (10 - 4 - 2) [NavKey.down, NavKey.npage, NavKey.up]).vmin ∧
      (nav_run 4 (10 - 4 - 2) [NavKey.down, NavKey.npage, NavKey.up]).vmin
        ≤ 10 - (4 + 1)) ∧
    (0 ≤ (nav_run 4 (10 - 4 - 2) [NavKey.down, NavKey.npage, NavKey.up]).cpos ∧
      (nav_run 4 (10 - 4 - 2) [NavKey.down, NavKey.npage, NavKey.up]).cpos
        ≤ (4 + 1) - 1) ∧
    (∀ s : NavState, s.cpos = 4 → s.vmin < 10 - 4 - 2 →
      nav_step 4 (10 - 4 - 2) s NavKey.down = ⟨s.vmin + 1, s.cpos⟩) ∧
    (∀ s : NavState, s.cpos = 4 → s.vmin < 10 - 4 - 2 →
      nav_step 4 (10 - 4 - 2) s NavKey.npage
        = ⟨min (10 - 4 - 2) (s.vmin + 10), s.cpos⟩) :=
  nav_bounds 4 10 [NavKey.down, NavKey.npage, NavKey.up] (by decide) (by decide)

/-! ### C1: line framing in get_stat -/

/-! ### Line-splitting lemmas -/

theorem splitSep_ne_nil (l : Line) : splitSep l ≠ [] := by
  cases l with
  | nil => simp [splitSep]
  | cons c rest =>
    rw [splitSep]
    split
    · simp
    · split <;> simp

theorem splitSep1_ne_nil (l : Line) : splitSep1 l ≠ [] := by
  cases l with
  | nil => simp [splitSep1]
  | cons c rest =>
    rw [splitSep1]
    split
    · simp
    · split <;> simp

theorem splitSep1_getD0 (l : Line) :
    (splitSep1 l).getD 0 [] = (splitSep l).getD 0 [] := by
  induction l with
  | nil => rfl
  | cons c rest ih =>
    by_cases hc : c = HAPROXY_STAT_SEP
    · simp [splitSep, splitSep1, hc]
    · cases h1 : splitSep1 rest with
      | nil => exact absurd h1 (splitSep1_ne_nil rest)
      | cons f fs =>
        cases h2 : splitSep rest with
        | nil => exact absurd h2 (splitSep_ne_nil rest)
        | cons g gs =>
          rw [h1, h2] at ih
          simp_all [splitSep, splitSep1, hc]

theorem getD_map_strip (l : List Line) (i : Nat) :
    (l.map pyStrip).getD i [] = pyStrip (l.getD i []) := by
  rw [List.getD_eq_getElem?_getD, List.getElem?_map,
    List.getD_eq_getElem?_getD]
  cases h : l[i]? with
  | none => rfl
  | some x => rfl

theorem statFieldsOf_getD0 (l : Line) :
    (statFieldsOf l).getD 0 [] = pxnameOf l := by
  unfold statFieldsOf
  rw [getD_map_strip]
  rfl

theorem statFieldsOf_getD1 (l : Line) :
    (statFieldsOf l).getD 1 [] = svnameOf l := by
  unfold statFieldsOf
  rw [getD_map_strip]
  rfl

/-! ### Branch equations for get_stat_step -/

theorem get_stat_track_svcount (st : StatState) (px : Line) :
    (get_stat_track st px).svcount = st.svcount := by
  unfold get_stat_track
  repeat' split
  all_goals rfl

theorem get_stat_record_svcount (st : StatState) (px : Line)
    (stat : List Line) :
    (get_stat_record st px stat).svcount = st.svcount := by
  unfold get_stat_record
  split <;> rfl

theorem get_stat_track_found (st : StatState) (px : Line) (p : Proxy)
    (hdf : dfind st.stats px = some p) : get_stat_track st px = st := by
  unfold get_stat_track
  rw [hdf]

theorem get_stat_track_new_low (st : StatState) (px : Line)
    (hdf : dfind st.stats px = none)
    (hlow : st.svcount < STAT_MAX_SERVICES) :
    get_stat_track st px
      = { st with stats := st.stats ++ [(px, [])],
                  pxcount := st.pxcount + 1 } := by
  unfold get_stat_track
  rw [hdf]
  dsimp only
  rw [if_pos hlow]

theorem get_stat_track_high_mem (st : StatState) (px : Line)
    (hdf : dfind st.stats px = none)
    (hhigh : ¬(st.svcount < STAT_MAX_SERVICES))
    (hmem : px ∈ st.overflow) : get_stat_track st px = st := by
  unfold get_stat_track
  rw [hdf]
  dsimp only
  rw [if_neg hhigh, if_pos hmem]

theorem get_stat_track_high_new (st : StatState) (px : Line)
    (hdf : dfind st.stats px = none)
    (hhigh : ¬(st.svcount < STAT_MAX_SERVICES))
    (hnot : px ∉ st.overflow) :
    get_stat_track st px
      = { st with overflow := st.overflow ++ [px],
                  pxcount := st.pxcount + 1 } := by
  unfold get_stat_track
  rw [hdf]
  dsimp only
  rw [if_neg hhigh, if_neg hnot]

theorem get_stat_record_low (st : StatState) (px : Line)
    (stat : List Line) (hlow : st.svcount < STAT_MAX_SERVICES) :
    get_stat_record st px stat
      = { st with
          stats := dmodify st.stats px (fun p => record p stat) } := by
  unfold get_stat_record
  rw [if_pos hlow]

theorem get_stat_record_high (st : StatState) (px : Line)
    (stat : List Line) (hhigh : ¬(st.svcount < STAT_MAX_SERVICES)) :
    get_stat_record st px stat = st := by
  unfold get_stat_record
  rw [if_neg hhigh]

theorem get_stat_step_accepted_svcount (st : StatState) (line : Line)
    (h1 : line.count HAPROXY_STAT_SEP = HAPROXY_STAT_NUMFIELDS)
    (h2 : startsWithChar line HAPROXY_STAT_COMMENT = false) :
    (get_stat_step st line).svcount = st.svcount + 1 := by
  unfold get_stat_step
  rw [if_neg (by omega), if_neg (by simp [h2])]
  dsimp only
  rw [get_stat_record_svcount, get_stat_track_svcount]

/-- The schema in the code has 51 fields, not 52, and `get_stat`
compares the separator count against the full field count, not the
field count minus one: a non-comment line whose count of ',' equals
`HAPROXY_STAT_NUMFIELDS - 1 = 50` (the claim's acceptance rule) is
silently skipped — the whole `get_stat` state is unchanged; a line with
51 separators (i.e. 52 comma-separated chunks) is the one accepted. -/
theorem stat_fieldcount_counterexample :
    HAPROXY_STAT_NUMFIELDS = 51 ∧
    (List.replicate 50 HAPROXY_STAT_SEP).count HAPROXY_STAT_SEP
        = HAPROXY_STAT_NUMFIELDS - 1 ∧
    startsWithChar (List.replicate 50 HAPROXY_STAT_SEP)
        HAPROXY_STAT_COMMENT = false ∧
    get_stat [List.replicate 50 HAPROXY_STAT_SEP] = statInit ∧
    (get_stat [List.replicate 51 HAPROXY_STAT_SEP]).svcount = 1 := by
  decide

/-- C1 (amended): `get_stat` silently skips a line (no record, no
count) exactly when its count of the ',' separator differs from
`HAPROXY_STAT_NUMFIELDS = 51` — the full field count of the 51-field
schema, not the field count minus one (upstream data lines carry a
trailing separator) — or the line starts with '#'; every non-comment
line with exactly 51 separators (52 comma-separated chunks) is accepted
and counted. -/
theorem get_stat_skip_iff (st : StatState) (line : Line) :
    (get_stat_step st line = st ↔
      (line.count HAPROXY_STAT_SEP ≠ HAPROXY_STAT_NUMFIELDS ∨
        startsWithChar line HAPROXY_STAT_COMMENT = true)) ∧
    (line.count HAPROXY_STAT_SEP = HAPROXY_STAT_NUMFIELDS →
      startsWithChar line HAPROXY_STAT_COMMENT = false →
      (get_stat_step st line).svcount = st.svcount + 1) := by
  constructor
  · constructor
    · intro heq
      by_contra hcon
      push_neg at hcon
      obtain ⟨hcnt, hcom⟩ := hcon
      have hs := get_stat_step_accepted_svcount st line hcnt (by
        cases hb : startsWithChar line HAPROXY_STAT_COMMENT
        · rfl
        · exact absurd hb hcom)
      rw [heq] at hs
      omega
    · intro hor
      unfold get_stat_step
      rcases hor with hcnt | hcom
      · rw [if_pos hcnt]
      · by_cases hcnt : line.count HAPROXY_STAT_SEP ≠ HAPROXY_STAT_NUMFIELDS
        · rw [if_pos hcnt]
        · rw [if_neg hcnt, if_pos hcom]
  · exact get_stat_step_accepted_svcount st line

/-- Witness for `get_stat_skip_iff`: a comment line is skipped, a
51-separator line is counted. -/
theorem get_stat_skip_iff_witness :
    get_stat_step statInit ('#' :: List.replicate 51 HAPROXY_STAT_SEP)
        = statInit ∧
    (get_stat_step statInit (List.replicate 51 HAPROXY_STAT_SEP)).svcount
        = 1 :=
  ⟨(get_stat_skip_iff statInit _).1.mpr (Or.inr (by decide)),
   (get_stat_skip_iff statInit _).2 (by decide) (by decide)⟩

/-! ### Association-list lemmas -/

theorem dfind_nil {α β : Type} [BEq α] (k : α) :
    dfind ([] : List (α × β)) k = none := rfl

theorem dfind_cons {α β : Type} [BEq α] (e : α × β) (es : List (α × β))
    (k : α) :
    dfind (e :: es) k = if e.1 == k then some e.2 else dfind es k := by
  unfold dfind
  rw [List.find?]
  cases h : e.1 == k <;> simp [h]

@[simp] theorem dfind_dinsert {α β : Type} [BEq α] [LawfulBEq α]
    (d : List (α × β)) (k q : α) (v : β) :
    dfind (dinsert d k v) q = if k == q then some v else dfind d q := by
  induction d with
  | nil => rw [dinsert, dfind_cons, dfind_nil]
  | cons e es ih =>
    by_cases he : e.1 = k <;> by_cases hq : k = q <;>
      by_cases heq : e.1 = q <;> simp_all [dinsert, dfind_cons]

theorem dfind_dmodify {α β : Type} [BEq α] [LawfulBEq α]
    (d : List (α × β)) (k q : α) (f : β → β) :
    dfind (dmodify d k f) q
      = if k == q then (dfind d k).map f else dfind d q := by
  induction d with
  | nil =>
    unfold dmodify
    by_cases hq : k = q <;> simp [hq, dfind_nil]
  | cons e es ih =>
    by_cases he : e.1 = k <;> by_cases hq : k = q <;>
      by_cases heq : e.1 = q <;> simp_all [dmodify, dfind_cons]

theorem dfind_append {α β : Type} [BEq α] (d d2 : List (α × β)) (k : α) :
    dfind (d ++ d2) k = ((dfind d k).or (dfind d2 k)) := by
  unfold dfind
  rw [List.find?_append]
  cases List.find? (fun e => e.1 == k) d <;> simp

theorem dfind_dinsert_self {α β : Type} [BEq α] [LawfulBEq α]
    (d : List (α × β)) (k : α) (v : β) :
    dfind (dinsert d k v) k = some v := by
  rw [dfind_dinsert, if_pos (by simp)]

/-! ### C3: "no check" normalization -/

/-- C3: for every stat record (any prior service state `svc`, any split
line `stat`): a raw `status` field equal to the literal "no check" is
stored as "-" and forces the stored `check_status` to "none" regardless
of its raw content; more generally, whenever the status stored at the
time `check_status` is processed (the current line's normalized status)
is "-", the stored `check_status` is "none". -/
theorem record_no_check_normalization (svc : Service) (stat : List Line) :
    (stat.getD 17 [] = "no check".toList →
      getattr (record_fields svc stat) "status"
          = some ("metric", "-".toList) ∧
      getattr (record_fields svc stat) "check_status"
          = some ("string", "none".toList)) ∧
    ((if stat.getD 17 [] == "no check".toList then "-".toList
        else stat.getD 17 []) = "-".toList →
      getattr (record_fields svc stat) "check_status"
          = some ("string", "none".toList)) := by
  constructor
  · intro h
    have h2 : stat[17]?.getD [] = "no check".toList := by simpa using h
    unfold record_fields
    constructor <;> simp [record_fields_aux, HAPROXY_STAT_CSV, getattr, h2]
  · intro h
    by_cases hnc : stat.getD 17 [] = "no check".toList
    · have h2 : stat[17]?.getD [] = "no check".toList := by simpa using hnc
      unfold record_fields
      simp [record_fields_aux, HAPROXY_STAT_CSV, getattr, h2]
    · rw [if_neg (by simpa using hnc)] at h
      have h2 : stat[17]?.getD [] = "-".toList := by simpa using h
      unfold record_fields
      simp [record_fields_aux, HAPROXY_STAT_CSV, getattr, h2]

/-- Witness for `record_no_check_normalization` on the scenario line. -/
theorem record_no_check_normalization_witness :
    getattr (record_fields [] ((splitSep c3_line).map pyStrip)) "status"
        = some ("metric", "-".toList) ∧
    getattr (record_fields [] ((splitSep c3_line).map pyStrip))
        "check_status" = some ("string", "none".toList) :=
  (record_no_check_normalization [] ((splitSep c3_line).map pyStrip)).1
    (by decide)

/-! ### C4: no coercion, no ParseError -/

/-- Parsing a well-framed line whose integer-typed `scur` field holds
the non-numeric text "abc" raises nothing: `get_stat` completes
normally, returns the snapshot, counts the line, and the record stores
the offending text verbatim; the empty `qcur` field stays the empty
string rather than being coerced to zero.  No ParseError exists
anywhere in the parse path. -/
theorem record_parse_error_counterexample :
    (get_stat [c4_line]).svcount = 1 ∧
    ((dfind (get_stat [c4_line]).stats ("web".toList)).bind
        (fun p => dfind p ("srv1".toList))).bind
        (fun svc => getattr svc "scur") = some ("metric", "abc".toList) ∧
    ((dfind (get_stat [c4_line]).stats ("web".toList)).bind
        (fun p => dfind p ("srv1".toList))).bind
        (fun svc => getattr svc "qcur") = some ("metric", []) := by
  decide

/-- C4 (amended): stat parsing performs no type coercion at all — every
field, integer-typed or not, is stored as its raw (stripped) text
paired with the schema type tag, empty fields stay empty and invalid
numeric text is stored verbatim; parsing itself never fails (numeric
interpretation happens later, at render time). -/
theorem record_stores_raw (svc : Service) (stat : List Line) :
    getattr (record_fields svc stat) "scur"
        = some ("metric", stat.getD 4 []) ∧
    getattr (record_fields svc stat) "qcur"
        = some ("metric", stat.getD 2 []) ∧
    getattr (record_fields svc stat) "bin"
        = some ("binary", stat.getD 8 []) := by
  refine ⟨?_, ?_, ?_⟩ <;>
    (unfold record_fields
     simp [record_fields_aux, HAPROXY_STAT_CSV, getattr])

/-! ### C2: grouping keys -/

/-- Records are *not* grouped under the numeric `iid` nor keyed by the
numeric `sid`: after parsing a FRONTEND line with `iid = 7` and a
server line with `sid = 3`, the snapshot has no entry under "7", the
proxy is reachable only under its name "web", and inside it the server
record sits under its name "srv1", not under "3". -/
theorem get_stat_key_counterexample :
    dfind (get_stat [c2_line, c3_line]).stats ("7".toList) = none ∧
    (dfind (get_stat [c2_line, c3_line]).stats ("web".toList)).isSome
        = true ∧
    ((dfind (get_stat [c2_line, c3_line]).stats ("web".toList)).bind
        (fun p => dfind p ("3".toList))) = none ∧
    ((dfind (get_stat [c2_line, c3_line]).stats ("web".toList)).bind
        (fun p => dfind p ("srv1".toList))).isSome = true := by
  decide

/-- C2 (amended): every accepted stat line processed below the service
cap inserts a record into the snapshot under its *proxy name* (the
stripped first field), keyed inside the proxy by its *service name*
(the stripped second field) — for FRONTEND/BACKEND and server records
alike; the proxy's numeric `iid` and the server's `sid` play no role in
the grouping. -/
theorem get_stat_keyed_by_name (st : StatState) (line : Line)
    (h1 : line.count HAPROXY_STAT_SEP = HAPROXY_STAT_NUMFIELDS)
    (h2 : startsWithChar line HAPROXY_STAT_COMMENT = false)
    (h3 : st.svcount < STAT_MAX_SERVICES) :
    ∃ proxy,
      dfind (get_stat_step st line).stats
          (((splitSep line).map pyStrip).getD 0 []) = some proxy ∧
      (dfind proxy (((splitSep line).map pyStrip).getD 1 [])).isSome
        = true := by
  unfold get_stat_step
  rw [if_neg (by omega), if_neg (by simp [h2])]
  dsimp only
  simp only [if_pos h3]
  rw [show ((splitSep line).map pyStrip).getD 0 [] = pxnameOf line from
    statFieldsOf_getD0 line]
  cases hdf : dfind st.stats (pxnameOf line) with
  | some p =>
    rw [get_stat_track_found st _ p hdf, get_stat_record_low _ _ _ h3]
    dsimp only
    refine ⟨record p ((splitSep line).map pyStrip), ?_, ?_⟩
    · rw [dfind_dmodify, if_pos (by simp), hdf, Option.map_some']
    · unfold record
      rw [dfind_dinsert_self]
      rfl
  | none =>
    rw [get_stat_track_new_low st _ hdf h3,
      get_stat_record_low
        { st with stats := st.stats ++ [(pxnameOf line, [])],
                  pxcount := st.pxcount + 1 }
        (pxnameOf line) ((splitSep line).map pyStrip) h3]
    dsimp only
    have hfind : dfind (st.stats ++ [(pxnameOf line, ([] : Proxy))])
        (pxnameOf line) = some [] := by
      rw [dfind_append, hdf, dfind_cons, if_pos (by simp)]
      rfl
    refine ⟨record [] ((splitSep line).map pyStrip), ?_, ?_⟩
    · rw [dfind_dmodify, if_pos (by simp), hfind, Option.map_some']
    · unfold record
      rw [dfind_dinsert_self]
      rfl

/-- Witness for `get_stat_keyed_by_name`: the spec's scenario line
yields a record keyed "FRONTEND" under the proxy name "web", with
`scur = ("metric", "5")` and `status = ("metric", "OPEN")`. -/
theorem get_stat_keyed_by_name_witness :
    (∃ proxy,
      dfind (get_stat_step statInit c2_line).stats
          (((splitSep c2_line).map pyStrip).getD 0 []) = some proxy ∧
      (dfind proxy (((splitSep c2_line).map pyStrip).getD 1 [])).isSome
        = true) ∧
    ((dfind (get_stat [c2_line]).stats ("web".toList)).bind
        (fun p => dfind p ("FRONTEND".toList))).bind
        (fun svc => getattr svc "scur") = some ("metric", "5".toList) ∧
    ((dfind (get_stat [c2_line]).stats ("web".toList)).bind
        (fun p => dfind p ("FRONTEND".toList))).bind
        (fun svc => getattr svc "status") = some ("metric", "OPEN".toList) :=
  ⟨get_stat_keyed_by_name statInit c2_line (by decide) (by decide)
      (by decide),
   by decide, by decide⟩

/-! ### C6: get_lines mutates the snapshot -/

theorem dfind_filter_self {α β : Type} [BEq α] (d : List (α × β)) (k : α) :
    dfind (d.filter (fun e => !(e.1 == k))) k = none := by
  induction d with
  | nil => rfl
  | cons e es ih =>
    rw [List.filter_cons]
    cases he : (e.1 == k) with
    | true => simpa [he] using ih
    | false => simpa [he, dfind_cons] using ih

theorem dfind_filter_none {α β : Type} [BEq α] (d : List (α × β))
    (q : α × β → Bool) (k : α) (h : dfind d k = none) :
    dfind (d.filter q) k = none := by
  induction d with
  | nil => rfl
  | cons e es ih =>
    rw [dfind_cons] at h
    cases he : (e.1 == k) with
    | true => simp [he] at h
    | false =>
      rw [he, if_neg (by simp)] at h
      rw [List.filter_cons]
      cases hq : q e with
      | true => simpa [hq, dfind_cons, he] using ih h
      | false => simpa [hq] using ih h

theorem dfind_map_snd {α β γ : Type} [BEq α] (d : List (α × β))
    (g : α × β → γ) (k : α) :
    dfind (d.map (fun e => (e.1, g e))) k
      = (d.find? (fun e => e.1 == k)).map g := by
  induction d with
  | nil => rfl
  | cons e es ih =>
    rw [List.map_cons, dfind_cons, List.find?]
    cases he : (e.1 == k) <;> simp_all [dfind_cons]

/-- `get_lines` does not leave the snapshot unchanged: the two
destructive `services.pop` calls remove the FRONTEND (and BACKEND)
records, so the returned snapshot differs from the input, a second
`get_lines` call on it yields a different (shorter) line sequence, and
the proxy's FRONTEND record is no longer present afterwards. -/
theorem get_lines_mutation_counterexample :
    (get_lines c6_stat).2 ≠ c6_stat ∧
    (get_lines ((get_lines c6_stat).2)).1 ≠ (get_lines c6_stat).1 ∧
    ((dfind (get_lines c6_stat).2 ("web".toList)).bind
      (fun p => dfind p ("FRONTEND".toList))) = none := by
  decide

/-- C6 (amended): building the RenderLine list *mutates* the snapshot:
`get_lines` pops each proxy's FRONTEND and BACKEND entries out of the
shared services dict while keeping every other record, so after the
call no proxy has a FRONTEND or BACKEND entry any more (the program
survives because `update_lines` runs `get_lines` exactly once per
freshly fetched snapshot, and a forced local redraw reuses the stored
line list instead of rebuilding it). -/
theorem get_lines_pops_frontend_backend (stat : StatDict) :
    (get_lines stat).2 = stat.map (fun e => (e.1,
      (e.2.filter (fun s => !(s.1 == "FRONTEND".toList))).filter
        (fun s => !(s.1 == "BACKEND".toList)))) ∧
    (∀ px : Line,
      ((dfind (get_lines stat).2 px).bind
        (fun p => dfind p ("FRONTEND".toList))) = none ∧
      ((dfind (get_lines stat).2 px).bind
        (fun p => dfind p ("BACKEND".toList))) = none) := by
  have hmap : (get_lines stat).2 = stat.map (fun e => (e.1,
      (e.2.filter (fun s => !(s.1 == "FRONTEND".toList))).filter
        (fun s => !(s.1 == "BACKEND".toList)))) := rfl
  refine ⟨hmap, fun px => ?_⟩
  rw [hmap, dfind_map_snd]
  cases hf : stat.find? (fun e => e.1 == px) with
  | none => exact ⟨rfl, rfl⟩
  | some e =>
    rw [Option.map_some']
    constructor
    · exact dfind_filter_none _ _ _ (dfind_filter_self _ _)
    · exact dfind_filter_self _ _

/-! ### C5: overflow accounting -/

theorem mem_firstOcc_aux (xs : List Line) (acc : List Line) (y : Line) :
    y ∈ xs.foldl (fun acc x => if x ∈ acc then acc else acc ++ [x]) acc ↔
      y ∈ acc ∨ y ∈ xs := by
  induction xs generalizing acc with
  | nil => simp
  | cons x xs ih =>
    rw [List.foldl_cons, ih]
    by_cases hx : x ∈ acc
    · simp only [if_pos hx, List.mem_cons]
      constructor
      · rintro (h | h)
        · exact Or.inl h
        · exact Or.inr (Or.inr h)
      · rintro (h | h | h)
        · exact Or.inl h
        · exact Or.inl (h ▸ hx)
        · exact Or.inr h
    · simp only [if_neg hx, List.mem_append, List.mem_singleton,
        List.mem_cons]
      tauto

theorem mem_firstOcc (xs : List Line) (y : Line) :
    y ∈ firstOcc xs ↔ y ∈ xs := by
  unfold firstOcc
  rw [mem_firstOcc_aux]
  simp

theorem firstOcc_append_one (xs : List Line) (x : Line) :
    firstOcc (xs ++ [x])
      = if x ∈ firstOcc xs then firstOcc xs else firstOcc xs ++ [x] := by
  unfold firstOcc
  rw [List.foldl_append]
  rfl

theorem nodup_firstOcc_aux (xs : List Line) (acc : List Line)
    (h : acc.Nodup) :
    (xs.foldl (fun acc x => if x ∈ acc then acc else acc ++ [x])
      acc).Nodup := by
  induction xs generalizing acc with
  | nil => exact h
  | cons x xs ih =>
    rw [List.foldl_cons]
    by_cases hx : x ∈ acc
    · rw [if_pos hx]
      exact ih acc h
    · rw [if_neg hx]
      refine ih _ ?_
      rw [List.nodup_append]
      refine ⟨h, List.nodup_singleton x, ?_⟩
      intro a ha hmem
      rw [List.mem_singleton] at hmem
      exact hx (hmem ▸ ha)

theorem nodup_firstOcc (xs : List Line) : (firstOcc xs).Nodup :=
  nodup_firstOcc_aux xs [] List.nodup_nil

theorem dfind_eq_none_iff {α β : Type} [BEq α] [LawfulBEq α]
    (d : List (α × β)) (k : α) :
    dfind d k = none ↔ k ∉ dkeys d := by
  induction d with
  | nil => simp [dfind_nil, dkeys]
  | cons e es ih =>
    rw [dfind_cons]
    by_cases he : e.1 = k
    · rw [if_pos (by simp [he])]
      unfold dkeys
      rw [List.map_cons]
      simp [he]
    · rw [if_neg (by simp [he]), ih]
      unfold dkeys
      rw [List.map_cons, List.mem_cons]
      constructor
      · intro h hor
        exact hor.elim (fun hk => he hk.symm) h
      · intro h hk
        exact h (Or.inr hk)

theorem mem_dkeys_of_dfind {α β : Type} [BEq α] [LawfulBEq α]
    {d : List (α × β)} {k : α} {v : β} (h : dfind d k = some v) :
    k ∈ dkeys d := by
  by_contra hmem
  rw [← dfind_eq_none_iff d k] at hmem
  rw [h] at hmem
  exact Option.noConfusion hmem

theorem dmodify_id_of_not_found {α β : Type} [BEq α] [LawfulBEq α]
    (d : List (α × β)) (k : α) (f : β → β) (h : dfind d k = none) :
    dmodify d k f = d := by
  induction d with
  | nil => rfl
  | cons e es ih =>
    rw [dfind_cons] at h
    by_cases he : e.1 = k
    · simp [he] at h
    · unfold dmodify at ih ⊢
      rw [List.map_cons, if_neg (by simp [he]), ih (by simpa [he] using h)]

theorem dinsert_append_of_not_found {α β : Type} [BEq α] [LawfulBEq α]
    (d : List (α × β)) (k : α) (v : β) (h : dfind d k = none) :
    dinsert d k v = d ++ [(k, v)] := by
  induction d with
  | nil => rfl
  | cons e es ih =>
    rw [dfind_cons] at h
    by_cases he : e.1 = k
    · simp [he] at h
    · rw [dinsert, if_neg (by simp [he]), List.cons_append,
        ih (by simpa [he] using h)]

theorem dkeys_dmodify {α β : Type} [BEq α] (d : List (α × β)) (k : α)
    (f : β → β) : dkeys (dmodify d k f) = dkeys d := by
  induction d with
  | nil => rfl
  | cons e es ih =>
    unfold dmodify at ih ⊢
    rw [List.map_cons]
    cases he : (e.1 == k) <;> simp_all [dkeys]

theorem totalServices_eq_pairs_length (d : StatDict) :
    totalServices d = (pairsOf d).length := by
  induction d with
  | nil => rfl
  | cons e es ih => simp_all [totalServices, pairsOf]

theorem pairsOf_append_one (d : StatDict) (k : Line) (v : Proxy) :
    pairsOf (d ++ [(k, v)])
      = pairsOf d ++ v.map (fun s => (k, s.1)) := by
  simp [pairsOf]

theorem not_mem_pairs_dfind (d : StatDict) (k s : Line) (q : Proxy)
    (hk : dfind d k = some q) (h : (k, s) ∉ pairsOf d) :
    dfind q s = none := by
  induction d with
  | nil => exact Option.noConfusion hk
  | cons e es ih =>
    rw [dfind_cons] at hk
    simp only [pairsOf, List.map_cons, List.flatten_cons,
      List.mem_append] at h
    push_neg at h
    by_cases he : e.1 = k
    · rw [if_pos (by simp [he])] at hk
      obtain rfl : e.2 = q := by injection hk
      rw [dfind_eq_none_iff]
      intro hmem
      refine h.1 ?_
      rw [List.mem_map]
      unfold dkeys at hmem
      rw [List.mem_map] at hmem
      obtain ⟨a, ha, rfl⟩ := hmem
      exact ⟨a, ha, by rw [he]⟩
    · rw [if_neg (by simp [he])] at hk
      exact ih hk (by simpa [pairsOf] using h.2)

theorem perm_append_middle {γ : Type} (A B : List γ) (x : γ) :
    ((A ++ [x]) ++ B).Perm ((A ++ B) ++ [x]) := by
  rw [List.append_assoc, List.append_assoc]
  exact List.Perm.append_left A (@List.perm_append_comm _ [x] B)

theorem pairsOf_dmodify_perm (d : StatDict) (k s : Line)
    (f : Proxy → Proxy) (hnd : (dkeys d).Nodup)
    (hkey : ∀ q, dfind d k = some q → ∃ v, f q = q ++ [(s, v)])
    (hsome : (dfind d k).isSome = true) :
    (pairsOf (dmodify d k f)).Perm (pairsOf d ++ [(k, s)]) := by
  induction d with
  | nil => simp [dfind_nil] at hsome
  | cons e es ih =>
    have hnd' : (dkeys es).Nodup := by
      unfold dkeys at hnd ⊢
      rw [List.map_cons] at hnd
      exact hnd.of_cons
    by_cases he : e.1 = k
    · have hq : dfind (e :: es) k = some e.2 := by
        rw [dfind_cons, if_pos (by simp [he])]
      obtain ⟨v, hv⟩ := hkey e.2 hq
      have hk_es : dfind es k = none := by
        rw [dfind_eq_none_iff]
        unfold dkeys at hnd
        rw [List.map_cons] at hnd
        rw [← he]
        exact (List.nodup_cons.mp hnd).1
      have hstep : dmodify (e :: es) k f = (e.1, f e.2) :: es := by
        unfold dmodify
        rw [List.map_cons, if_pos (by simp [he])]
        congr 1
        exact dmodify_id_of_not_found es k f hk_es
      rw [hstep, hv]
      simp only [pairsOf, List.map_cons, List.flatten_cons,
        List.map_append, List.map_nil]
      rw [he]
      exact perm_append_middle _ _ _
    · have hq : dfind (e :: es) k = dfind es k := by
        rw [dfind_cons, if_neg (by simp [he])]
      have hstep : dmodify (e :: es) k f = e :: dmodify es k f := by
        unfold dmodify
        rw [List.map_cons, if_neg (by simp [he])]
      rw [hstep]
      have ihh := ih hnd' (fun q hq2 => hkey q (by rw [hq]; exact hq2))
        (by rw [hq] at hsome; exact hsome)
      simp only [pairsOf, List.map_cons, List.flatten_cons] at ihh ⊢
      exact (List.Perm.append_left _ ihh).trans (by rw [List.append_assoc])

set_option maxHeartbeats 4000000 in
theorem step_eq_low_found (st : StatState) (l : Line) (p : Proxy)
    (h1 : l.count HAPROXY_STAT_SEP = HAPROXY_STAT_NUMFIELDS)
    (h2 : startsWithChar l HAPROXY_STAT_COMMENT = false)
    (hlow : st.svcount < STAT_MAX_SERVICES)
    (hdf : dfind st.stats (pxnameOf l) = some p) :
    get_stat_step st l =
      { st with
        stats := dmodify st.stats (pxnameOf l)
          (fun q => record q (statFieldsOf l)),
        svcount := st.svcount + 1 } := by
  unfold get_stat_step
  rw [if_neg (by omega), if_neg (by simp [h2])]
  dsimp only
  simp only [if_pos hlow]
  rw [show ((splitSep l).map pyStrip).getD 0 [] = pxnameOf l from
    statFieldsOf_getD0 l,
    get_stat_track_found st _ p hdf,
    get_stat_record_low st (pxnameOf l) ((splitSep l).map pyStrip) hlow]
  rfl

set_option maxHeartbeats 4000000 in
theorem step_eq_low_new (st : StatState) (l : Line)
    (h1 : l.count HAPROXY_STAT_SEP = HAPROXY_STAT_NUMFIELDS)
    (h2 : startsWithChar l HAPROXY_STAT_COMMENT = false)
    (hlow : st.svcount < STAT_MAX_SERVICES)
    (hdf : dfind st.stats (pxnameOf l) = none) :
    get_stat_step st l =
      { st with
        stats := st.stats ++ [(pxnameOf l, record [] (statFieldsOf l))],
        pxcount := st.pxcount + 1,
        svcount := st.svcount + 1 } := by
  unfold get_stat_step
  rw [if_neg (by omega), if_neg (by simp [h2])]
  dsimp only
  simp only [if_pos hlow]
  rw [show ((splitSep l).map pyStrip).getD 0 [] = pxnameOf l from
    statFieldsOf_getD0 l,
    get_stat_track_new_low st _ hdf hlow,
    get_stat_record_low
      { st with stats := st.stats ++ [(pxnameOf l, [])],
                pxcount := st.pxcount + 1 }
      (pxnameOf l) ((splitSep l).map pyStrip) hlow]
  dsimp only
  have hmod : dmodify (st.stats ++ [(pxnameOf l, [])]) (pxnameOf l)
      (fun q => record q ((splitSep l).map pyStrip))
      = st.stats ++ [(pxnameOf l,
          record [] ((splitSep l).map pyStrip))] := by
    unfold dmodify
    rw [List.map_append]
    congr 1
    · exact dmodify_id_of_not_found st.stats (pxnameOf l)
        (fun q => record q ((splitSep l).map pyStrip)) hdf
    · rw [List.map_cons, if_pos (by simp), List.map_nil]
  rw [hmod]
  rfl

set_option maxHeartbeats 4000000 in
theorem step_eq_high (st : StatState) (l : Line)
    (h1 : l.count HAPROXY_STAT_SEP = HAPROXY_STAT_NUMFIELDS)
    (h2 : startsWithChar l HAPROXY_STAT_COMMENT = false)
    (hhigh : ¬(st.svcount < STAT_MAX_SERVICES)) :
    get_stat_step st l =
      (if (dfind st.stats (pxnameOf l)).isSome
          ∨ pxnameOf l ∈ st.overflow then
        { st with svcount := st.svcount + 1 }
      else
        { st with overflow := st.overflow ++ [pxnameOf l],
                  pxcount := st.pxcount + 1,
                  svcount := st.svcount + 1 }) := by
  unfold get_stat_step
  rw [if_neg (by omega), if_neg (by simp [h2])]
  dsimp only
  simp only [if_neg hhigh]
  rw [show ((splitSep1 l).map pyStrip).getD 0 [] = pxnameOf l from by
    rw [getD_map_strip, splitSep1_getD0]
    rfl]
  cases hdf : dfind st.stats (pxnameOf l) with
  | some p =>
    rw [get_stat_track_found st _ p hdf,
      get_stat_record_high st (pxnameOf l) ((splitSep1 l).map pyStrip)
        hhigh,
      if_pos (Or.inl (Option.isSome_some :
        (some p).isSome = true))]
  | none =>
    by_cases hovf : pxnameOf l ∈ st.overflow
    · rw [get_stat_track_high_mem st _ hdf hhigh hovf,
        get_stat_record_high st (pxnameOf l) ((splitSep1 l).map pyStrip)
          hhigh,
        if_pos (Or.inr hovf :
          (none : Option Proxy).isSome = true ∨ pxnameOf l ∈ st.overflow)]
    · rw [get_stat_track_high_new st _ hdf hhigh hovf,
        get_stat_record_high
          { st with overflow := st.overflow ++ [pxnameOf l],
                    pxcount := st.pxcount + 1 }
          (pxnameOf l) ((splitSep1 l).map pyStrip) hhigh,
        if_neg (show
          ¬((none : Option Proxy).isSome = true ∨ pxnameOf l ∈ st.overflow)
          by simp [hovf])]

set_option maxHeartbeats 4000000 in
theorem statInv_step (seen : List Line) (l : Line) (st : StatState)
    (hacc : statAccepted l)
    (hfresh : (pxnameOf l, svnameOf l) ∉
      seen.map (fun x => (pxnameOf x, svnameOf x)))
    (hinv : StatInv seen st) :
    StatInv (seen ++ [l]) (get_stat_step st l) := by
  obtain ⟨h1, h2⟩ := hacc
  have hndk : (dkeys st.stats ++ st.overflow).Nodup := by
    rw [hinv.keys]
    exact nodup_firstOcc _
  have hndk1 : (dkeys st.stats).Nodup := (List.nodup_append.mp hndk).1
  have hmem_first : ∀ x : Line, x ∈ dkeys st.stats ++ st.overflow ↔
      x ∈ seen.map pxnameOf := by
    intro x
    rw [hinv.keys, mem_firstOcc]
  have hmapapp : (seen ++ [l]).map pxnameOf
      = seen.map pxnameOf ++ [pxnameOf l] := by
    rw [List.map_append]
    rfl
  have hlenapp : (seen ++ [l]).length = seen.length + 1 := by
    rw [List.length_append]
    rfl
  by_cases hlow : st.svcount < STAT_MAX_SERVICES
  · have hlen : seen.length < STAT_MAX_SERVICES := hinv.sv ▸ hlow
    have hover : st.overflow = [] := hinv.ovf hlen
    have hseen_take : seen.take STAT_MAX_SERVICES = seen :=
      List.take_of_length_le (by omega)
    have htake : (seen ++ [l]).take STAT_MAX_SERVICES
        = seen ++ [l] := List.take_of_length_le (by omega)
    have hpairs_tgt : ((seen ++ [l]).take STAT_MAX_SERVICES).map
        (fun x => (pxnameOf x, svnameOf x))
        = (seen.take STAT_MAX_SERVICES).map
            (fun x => (pxnameOf x, svnameOf x))
          ++ [(pxnameOf l, svnameOf l)] := by
      rw [htake, hseen_take, List.map_append]
      rfl
    cases hdf : dfind st.stats (pxnameOf l) with
    | some p =>
      rw [step_eq_low_found st l p h1 h2 hlow hdf]
      have hmem : pxnameOf l ∈ seen.map pxnameOf := by
        rw [← hmem_first]
        exact List.mem_append_left _ (mem_dkeys_of_dfind hdf)
      have hfo : firstOcc ((seen ++ [l]).map pxnameOf)
          = firstOcc (seen.map pxnameOf) := by
        rw [hmapapp, firstOcc_append_one,
          if_pos ((mem_firstOcc _ _).mpr hmem)]
      have hfresh2 : (pxnameOf l, svnameOf l) ∉ pairsOf st.stats := by
        intro hmem2
        refine hfresh ?_
        have hm := hinv.pairs.mem_iff.mp hmem2
        rw [List.mem_map] at hm ⊢
        obtain ⟨a, ha, hpa⟩ := hm
        exact ⟨a, List.take_subset _ _ ha, hpa⟩
      have hdfq : dfind p (svnameOf l) = none :=
        not_mem_pairs_dfind st.stats (pxnameOf l) (svnameOf l) p hdf
          hfresh2
      refine ⟨?_, ?_, ?_, ?_, ?_⟩
      · rw [hlenapp]
        exact congrArg (· + 1) hinv.sv
      · dsimp only
        rw [dkeys_dmodify, hinv.keys, hfo]
      · dsimp only
        rw [dkeys_dmodify]
        exact hinv.px
      · intro _
        exact hover
      · rw [hpairs_tgt]
        have hperm := pairsOf_dmodify_perm st.stats (pxnameOf l)
          (svnameOf l) (fun q => record q (statFieldsOf l))
          hndk1 ?_ (by rw [hdf]; rfl)
        · exact hperm.trans (List.Perm.append hinv.pairs (List.Perm.refl _))
        · intro q hq
          rw [hdf] at hq
          obtain rfl : p = q := by injection hq
          refine ⟨record_fields ((dfind p (svnameOf l)).getD [])
            (statFieldsOf l), ?_⟩
          unfold record
          rw [statFieldsOf_getD1]
          exact dinsert_append_of_not_found p (svnameOf l) _ hdfq
    | none =>
      rw [step_eq_low_new st l h1 h2 hlow hdf]
      have hnot_keys : pxnameOf l ∉ dkeys st.stats := by
        rw [← dfind_eq_none_iff]
        exact hdf
      have hnot_first : pxnameOf l ∉ firstOcc (seen.map pxnameOf) := by
        rw [mem_firstOcc, ← hmem_first, hover, List.append_nil]
        exact hnot_keys
      have hrec : record [] (statFieldsOf l)
          = [(svnameOf l,
              record_fields ((dfind ([] : Proxy) (svnameOf l)).getD [])
                (statFieldsOf l))] := by
        unfold record
        rw [statFieldsOf_getD1]
        rfl
      refine ⟨?_, ?_, ?_, ?_, ?_⟩
      · rw [hlenapp]
        exact congrArg (· + 1) hinv.sv
      · dsimp only
        rw [hmapapp, firstOcc_append_one, if_neg hnot_first,
          ← hinv.keys, hover, List.append_nil, List.append_nil]
        unfold dkeys
        rw [List.map_append]
        rfl
      · dsimp only
        rw [hinv.px, hover, List.append_nil, List.append_nil]
        unfold dkeys
        rw [List.map_append, List.length_append]
        rfl
      · intro _
        exact hover
      · dsimp only
        rw [hrec, pairsOf_append_one, hpairs_tgt]
        exact List.Perm.append hinv.pairs (List.Perm.refl _)
  · have htake : (seen ++ [l]).take STAT_MAX_SERVICES
        = seen.take STAT_MAX_SERVICES :=
      List.take_append_of_le_length (by
        rw [← hinv.sv]
        omega)
    have hpairs_tgt : ((seen ++ [l]).take STAT_MAX_SERVICES).map
        (fun x => (pxnameOf x, svnameOf x))
        = (seen.take STAT_MAX_SERVICES).map
            (fun x => (pxnameOf x, svnameOf x)) := by
      rw [htake]
    rw [step_eq_high st l h1 h2 hlow]
    by_cases hcounted : (dfind st.stats (pxnameOf l)).isSome
        ∨ pxnameOf l ∈ st.overflow
    · rw [if_pos hcounted]
      have hmem : pxnameOf l ∈ seen.map pxnameOf := by
        rw [← hmem_first, List.mem_append]
        rcases hcounted with hs | ho
        · cases hdf : dfind st.stats (pxnameOf l) with
          | some p => exact Or.inl (mem_dkeys_of_dfind hdf)
          | none => rw [hdf] at hs; exact absurd hs (by simp)
        · exact Or.inr ho
      have hfo : firstOcc ((seen ++ [l]).map pxnameOf)
          = firstOcc (seen.map pxnameOf) := by
        rw [hmapapp, firstOcc_append_one,
          if_pos ((mem_firstOcc _ _).mpr hmem)]
      refine ⟨?_, ?_, ?_, ?_, ?_⟩
      · rw [hlenapp]
        exact congrArg (· + 1) hinv.sv
      · rw [hfo]
        exact hinv.keys
      · exact hinv.px
      · intro hcon
        rw [hlenapp] at hcon
        rw [← hinv.sv] at hcon
        omega
      · rw [hpairs_tgt]
        exact hinv.pairs
    · rw [if_neg hcounted]
      push_neg at hcounted
      obtain ⟨hs, ho⟩ := hcounted
      have hdf : dfind st.stats (pxnameOf l) = none := by
        cases hdf2 : dfind st.stats (pxnameOf l) with
        | some p => rw [hdf2] at hs; exact absurd (by rfl) hs
        | none => rfl
      have hnot_first : pxnameOf l ∉ firstOcc (seen.map pxnameOf) := by
        rw [mem_firstOcc, ← hmem_first, List.mem_append]
        push_neg
        constructor
        · rw [← dfind_eq_none_iff]
          exact hdf
        · exact ho
      refine ⟨?_, ?_, ?_, ?_, ?_⟩
      · rw [hlenapp]
        exact congrArg (· + 1) hinv.sv
      · dsimp only
        rw [hmapapp, firstOcc_append_one, if_neg hnot_first,
          ← hinv.keys, List.append_assoc]
      · dsimp only
        rw [hinv.px]
        simp only [List.length_append, List.length_cons, List.length_nil]
        omega
      · intro hcon
        rw [hlenapp, ← hinv.sv] at hcon
        omega
      · rw [hpairs_tgt]
        exact hinv.pairs


/-- The loop invariant holds after folding `get_stat_step` over any run
of accepted, pairwise-fresh lines. -/
theorem statInv_run (rest : List Line) (seen : List Line) (st : StatState)
    (hacc : ∀ l ∈ rest, statAccepted l)
    (hnd : ((seen ++ rest).map (fun x => (pxnameOf x, svnameOf x))).Nodup)
    (hinv : StatInv seen st) :
    StatInv (seen ++ rest) (rest.foldl get_stat_step st) := by
  induction rest generalizing seen st with
  | nil => simpa using hinv
  | cons l rest ih =>
    have hdisj := (List.nodup_append.mp
      (by simpa [List.map_append] using hnd)).2.2
    have hfresh : (pxnameOf l, svnameOf l) ∉
        seen.map (fun x => (pxnameOf x, svnameOf x)) := by
      intro hmem
      exact hdisj hmem (by simp)
    have hstep := statInv_step seen l st (hacc l (by simp)) hfresh hinv
    have hrest := ih (seen ++ [l]) (get_stat_step st l)
      (fun x hx => hacc x (by simp [hx]))
      (by simpa [List.map_append] using hnd) hstep
    rw [List.append_assoc] at hrest
    exact hrest

/-- C5: for a response of N well-formed service lines with pairwise
distinct (proxy name, service name) pairs and N above the cap
STAT_MAX_SERVICES = 100, `get_stat` counts all N services, materializes
exactly min(N, 100) service records across all proxies, and counts each
distinct proxy name exactly once -- also those first seen after the
cap. -/
theorem get_stat_overflow (lines : List Line)
    (hacc : ∀ l ∈ lines, statAccepted l)
    (hnd : (lines.map (fun x => (pxnameOf x, svnameOf x))).Nodup)
    (hcap : STAT_MAX_SERVICES < lines.length) :
    (get_stat lines).svcount = lines.length ∧
    totalServices (get_stat lines).stats = min lines.length STAT_MAX_SERVICES ∧
    (get_stat lines).pxcount = (firstOcc (lines.map pxnameOf)).length := by
  have hinv0 : StatInv [] statInit := by
    refine ⟨rfl, rfl, rfl, fun _ => rfl, ?_⟩
    simp [pairsOf, statInit]
  have hinv := statInv_run lines [] statInit hacc (by simpa using hnd) hinv0
  rw [List.nil_append] at hinv
  refine ⟨hinv.sv, ?_, ?_⟩
  · have hp := hinv.pairs.length_eq
    rw [totalServices_eq_pairs_length]
    simp only [get_stat]
    rw [hp, List.length_map, List.length_take]
    exact Nat.min_comm STAT_MAX_SERVICES lines.length
  · have hk := hinv.keys
    have hpx := hinv.px
    simp only [get_stat]
    rw [hpx, hk]

theorem get_stat_overflow_witness :
    (get_stat c5_lines).svcount = c5_lines.length ∧
    totalServices (get_stat c5_lines).stats =
      min c5_lines.length STAT_MAX_SERVICES ∧
    (get_stat c5_lines).pxcount =
      (firstOcc (c5_lines.map pxnameOf)).length :=
  get_stat_overflow c5_lines (by decide) (by decide) (by decide)

end Hatop
